import Mathlib

/-!
Verification of the Anime4i HLS download bot (src/bot.py) against its
natural-language specification.

The source file contains two complete variants of the same script,
concatenated.  Execution blocks at line 107 (`client.run_until_disconnected()`)
inside the first `if __name__ == '__main__':` block, so while the bot serves,
the first variant is in effect end to end: the first `on_message`
(lines 70-102) handles every message and calls the first `download_hls_sync`
(lines 44-62), which passes the module-level `HEADERS` dict (lines 24-28) to
every request.  The second variant (lines 109-171) executes only if a
disconnect lets the script continue past line 107; it rebinds the globals,
registers its own handler on a new client object, and its downloader
hardcodes a `User-Agent: Mozilla/5.0` dict.  Both variants are modelled; the
serving (first) one carries the claims.

Strings are embedded as `List Char` (`Str`), bytes as `List Nat`, and the
network as an explicit oracle `fetch : Str → Except Str (List Nat)` mapping a
URL to either a response body or an error message.  The module-level mutable
dict `HEADERS` is threaded explicitly as state; structures record the requests
each operation performs (URL plus the header copy stored by
`urllib.request.Request`).
-/

/-- Strings of the Python program, embedded as lists of characters. -/
abbrev Str := List Char

deriving instance DecidableEq for Except

/-- Python whitespace (`str.isspace`, and the `\s` class of `re` on `str`):
the six ASCII whitespace characters plus the common Unicode whitespace
code points recognised by CPython. -/
def pySpaceChar (c : Char) : Bool :=
  c = ' ' || c = '\t' || c = '\n' || c = '\x0b' || c = '\x0c' || c = '\r' ||
  c = '\x1c' || c = '\x1d' || c = '\x1e' || c = '\x1f' || c = '\x85' ||
  c = '\xa0' || c = ' ' ||
  (decide (' ' ≤ c) && decide (c ≤ ' ')) ||
  c = ' ' || c = ' ' || c = ' ' || c = ' ' || c = '　'

/-- Python `str.strip()` with no argument: remove leading and trailing
whitespace. -/
def pyStrip (s : Str) : Str :=
  ((s.dropWhile pySpaceChar).reverse.dropWhile pySpaceChar).reverse

/-- Line boundary characters of Python `str.splitlines`. -/
def lineBreakChar (c : Char) : Bool :=
  c = '\n' || c = '\r' || c = '\x0b' || c = '\x0c' ||
  c = '\x1c' || c = '\x1d' || c = '\x1e' || c = '\x85' ||
  c = ' ' || c = ' '

/-- Worker for `splitlines`: first argument is the remaining input, second the
current line accumulated in reverse. -/
def splitlinesGo : Str → Str → List Str
  | [], acc => if acc = [] then [] else [acc.reverse]
  | '\r' :: '\n' :: rest, acc => acc.reverse :: splitlinesGo rest []
  | c :: rest, acc =>
      if lineBreakChar c then acc.reverse :: splitlinesGo rest []
      else splitlinesGo rest (c :: acc)

/-- Python `str.splitlines()`: split at line boundaries (`\r\n` counts as a
single boundary), with no trailing empty line for a trailing newline. -/
def splitlines (s : Str) : List Str := splitlinesGo s []

/-- Is `needle` a contiguous subsequence of `hay`?  Embeds Python's
`needle in hay` test on strings. -/
def seqContains (needle : Str) : Str → Bool
  | [] => needle.isEmpty
  | c :: rest => needle.isPrefixOf (c :: rest) || seqContains needle rest

/-- Split at the first occurrence of `sep`, dropping it; if `sep` does not
occur the second component is empty.  Embeds Python `s.split(sep, 1)` as used
by `urlsplit` for `#` and `?`. -/
def splitOnceChar (sep : Char) : Str → Str × Str
  | [] => ([], [])
  | c :: rest =>
      if c = sep then ([], rest)
      else
        let p := splitOnceChar sep rest
        (c :: p.1, p.2)

/-- Python `s.split(sep)` for a one-character separator (never returns an
empty list: splitting the empty string gives one empty part). -/
def splitOnChar (sep : Char) : Str → List Str
  | [] => [[]]
  | c :: rest =>
      if c = sep then [] :: splitOnChar sep rest
      else
        match splitOnChar sep rest with
        | [] => [[c]]
        | p :: ps => (c :: p) :: ps

/-- Python `sep.join(parts)` for a one-character separator. -/
def joinChar (sep : Char) : List Str → Str
  | [] => []
  | [p] => p
  | p :: ps => p ++ sep :: joinChar sep ps

/-- Python `segments[1:-1] = filter(None, segments[1:-1])` applied to the tail
of a list: drop empty entries except the final one. -/
def filterKeepLast : List Str → List Str
  | [] => []
  | [a] => [a]
  | a :: rest => if a = [] then filterKeepLast rest else a :: filterKeepLast rest

/-- Drop empty entries of a list except its first and last elements, as
`urljoin` does to the merged segment list. -/
def filterMiddle : List Str → List Str
  | [] => []
  | [a] => [a]
  | a :: rest => a :: filterKeepLast rest

/-- `urlsplit` removes ASCII tab, carriage return, and newline anywhere in the
URL before parsing (CPython `_UNSAFE_URL_BYTES_TO_REMOVE`). -/
def removeTabCrLf (s : Str) : Str :=
  s.filter (fun c => !(c = '\t' || c = '\r' || c = '\n'))

/-- Characters allowed in a URL scheme after the leading letter. -/
def schemeChar (c : Char) : Bool :=
  c.isAlpha || c.isDigit || c = '+' || c = '-' || c = '.'

/-- Split a leading `scheme:` off a URL, as `urlsplit` does: the part before
the first `:` must be nonempty, start with a letter, and consist of scheme
characters; the scheme is lowercased. -/
def splitScheme (s : Str) : Option (Str × Str) :=
  let pre := s.takeWhile (fun c => c ≠ ':')
  if pre.length < s.length ∧ pre ≠ [] ∧ (pre.headD ' ').isAlpha ∧
      pre.all schemeChar then
    some (pre.map Char.toLower, s.drop (pre.length + 1))
  else none

/-- A character that may appear in a netloc (stops at `/`, `?`, `#`). -/
def netlocChar (c : Char) : Bool := !(c = '/' || c = '?' || c = '#')

/-- The five components produced by `urlsplit` (`params` is not modelled: the
inputs this program feeds to `urljoin` contain no `;`). -/
structure UrlParts where
  scheme : Str
  netloc : Str
  path : Str
  query : Str
  fragment : Str
deriving DecidableEq

/-- Model of Python `urllib.parse.urlsplit(url, dscheme)`: strip unsafe
bytes, split off the scheme (defaulting to `dscheme`), then `//netloc`, then
the fragment at the first `#`, then the query at the first `?`. -/
def urlsplitM (dscheme : Str) (url0 : Str) : UrlParts :=
  let url := removeTabCrLf url0
  let sr := match splitScheme url with
    | some p => p
    | none => (dscheme, url)
  let nr :=
    if ['/', '/'].isPrefixOf sr.2 then
      ((sr.2.drop 2).takeWhile netlocChar, (sr.2.drop 2).dropWhile netlocChar)
    else ([], sr.2)
  let rf := splitOnceChar '#' nr.2
  let pq := splitOnceChar '?' rf.1
  ⟨sr.1, nr.1, pq.1, pq.2, rf.2⟩

/-- Model of Python `urllib.parse.urlunsplit`. -/
def urlunsplitM (p : UrlParts) : Str :=
  let url := p.path
  let url :=
    if p.netloc ≠ [] ∨ ['/', '/'].isPrefixOf url then
      ['/', '/'] ++ p.netloc ++
        (if url ≠ [] ∧ url.headD ' ' ≠ '/' then '/' :: url else url)
    else url
  let url := if p.scheme ≠ [] then p.scheme ++ ':' :: url else url
  let url := if p.query ≠ [] then url ++ '?' :: p.query else url
  if p.fragment ≠ [] then url ++ '#' :: p.fragment else url

/-- `urllib.parse.uses_relative`. -/
def usesRelative : List Str :=
  ["", "ftp", "http", "gopher", "nntp", "imap", "wais", "file", "https",
   "shttp", "mms", "prospero", "rtsp", "rtspu", "sftp", "svn", "svn+ssh",
   "ws", "wss"].map String.toList

/-- `urllib.parse.uses_netloc`. -/
def usesNetloc : List Str :=
  ["", "ftp", "http", "gopher", "nntp", "telnet", "imap", "wais", "file",
   "mms", "https", "shttp", "snews", "prospero", "rtsp", "rtspu", "rsync",
   "svn", "svn+ssh", "sftp", "nfs", "git", "git+ssh", "ws", "wss",
   "itms-services"].map String.toList

/-- One step of the dot-segment resolution loop of `urljoin`: `..` pops the
accumulated path (popping an empty list is a no-op), `.` is skipped, anything
else is appended. -/
def dotStep (acc : List Str) (sg : Str) : List Str :=
  if sg = ['.', '.'] then acc.dropLast
  else if sg = ['.'] then acc
  else acc ++ [sg]

/-- Model of Python `urllib.parse.urljoin(base, url)` (without `;params`
handling, which none of the program's inputs exercise). -/
def urljoin (base url : Str) : Str :=
  if base = [] then url
  else if url = [] then base
  else
    let b := urlsplitM [] base
    let u := urlsplitM b.scheme url
    if u.scheme ≠ b.scheme ∨ u.scheme ∉ usesRelative then url
    else if u.scheme ∈ usesNetloc ∧ u.netloc ≠ [] then
      urlunsplitM ⟨u.scheme, u.netloc, u.path, u.query, u.fragment⟩
    else
      let netloc := if u.scheme ∈ usesNetloc then b.netloc else u.netloc
      if u.path = [] then
        urlunsplitM ⟨u.scheme, netloc, b.path,
          (if u.query = [] then b.query else u.query), u.fragment⟩
      else
        let baseParts0 := splitOnChar '/' b.path
        let baseParts :=
          if baseParts0.getLast? ≠ some [] then baseParts0.dropLast
          else baseParts0
        let segments :=
          if u.path.headD ' ' = '/' then splitOnChar '/' u.path
          else filterMiddle (baseParts ++ splitOnChar '/' u.path)
        let resolved := segments.foldl dotStep []
        let resolved :=
          match segments.getLast? with
          | some sg =>
              if sg = ['.', '.'] ∨ sg = ['.'] then resolved ++ [[]]
              else resolved
          | none => resolved
        let newPath := joinChar '/' resolved
        urlunsplitM ⟨u.scheme, netloc,
          (if newPath = [] then ['/'] else newPath), u.query, u.fragment⟩

example : urljoin "https://h/a/".toList "seg1.ts".toList
    = "https://h/a/seg1.ts".toList := by decide

example : urljoin "https://h/a/".toList "../c".toList
    = "https://h/c".toList := by decide

example : urljoin "https://h/a/".toList "/x".toList
    = "https://h/x".toList := by decide

example : splitlines "#EXTM3U\nseg1.ts\r\nseg2.ts\n".toList
    = ["#EXTM3U".toList, "seg1.ts".toList, "seg2.ts".toList] := by decide

/-- Is `b` a UTF-8 continuation byte (`0x80`-`0xBF`)? -/
def contByte (b : Nat) : Bool := 0x80 ≤ b && b ≤ 0xBF

/-- Strict UTF-8 decoding, as Python `bytes.decode('utf-8')` (and `.decode()`,
whose default codec is UTF-8): rejects invalid start bytes, truncated
sequences, overlong encodings, surrogate code points and code points above
`U+10FFFF`; `none` models the raised `UnicodeDecodeError`. -/
def utf8Decode? : List Nat → Option Str
  | [] => some []
  | b :: rest =>
    if b ≤ 0x7F then
      match utf8Decode? rest with
      | some cs => some (Char.ofNat b :: cs)
      | none => none
    else if b ≤ 0xC1 then none
    else if b ≤ 0xDF then
      match rest with
      | b1 :: rest1 =>
        if contByte b1 then
          match utf8Decode? rest1 with
          | some cs => some (Char.ofNat ((b - 0xC0) * 0x40 + (b1 - 0x80)) :: cs)
          | none => none
        else none
      | [] => none
    else if b ≤ 0xEF then
      match rest with
      | b1 :: b2 :: rest2 =>
        if contByte b1 && contByte b2 then
          let cp := (b - 0xE0) * 0x1000 + (b1 - 0x80) * 0x40 + (b2 - 0x80)
          if cp < 0x800 then none
          else if 0xD800 ≤ cp ∧ cp ≤ 0xDFFF then none
          else
            match utf8Decode? rest2 with
            | some cs => some (Char.ofNat cp :: cs)
            | none => none
        else none
      | _ => none
    else if b ≤ 0xF4 then
      match rest with
      | b1 :: b2 :: b3 :: rest3 =>
        if contByte b1 && contByte b2 && contByte b3 then
          let cp := (b - 0xF0) * 0x40000 + (b1 - 0x80) * 0x1000 +
            (b2 - 0x80) * 0x40 + (b3 - 0x80)
          if cp < 0x10000 ∨ 0x10FFFF < cp then none
          else
            match utf8Decode? rest3 with
            | some cs => some (Char.ofNat cp :: cs)
            | none => none
        else none
      | _ => none
    else none

/-- The bytes of an ASCII string, for building concrete response bodies. -/
def asciiBytes (s : String) : List Nat := s.toList.map Char.toNat

/-- A header mapping, in insertion order (Python dict preserves it). -/
abbrev HeadersMap := List (Str × Str)

/-- The environment configuration read at startup (lines 20-22): values of
USER_AGENT, REFERER and COOKIES after `os.getenv` defaulting. -/
structure EnvConfig where
  USER_AGENT : Str
  REFERER : Str
  COOKIES : Str
deriving DecidableEq

/-- The module-level base header dict built once at lines 24-28: always the
user agent; Referer and Cookie only when the configured string is nonempty. -/
def HEADERS (cfg : EnvConfig) : HeadersMap :=
  let h : HeadersMap := [("User-Agent".toList, cfg.USER_AGENT)]
  let h := if cfg.REFERER ≠ [] then h ++ [("Referer".toList, cfg.REFERER)] else h
  if cfg.COOKIES ≠ [] then h ++ [("Cookie".toList, cfg.COOKIES)] else h

/-- Python `str.capitalize()`: first character uppercased, the rest
lowercased, as `urllib.request.Request.add_header` applies to header keys. -/
def pyCapitalize : Str → Str
  | [] => []
  | c :: rest => c.toUpper :: rest.map Char.toLower

/-- `urllib.request.Request(url, headers=h)` copies the given dict entry by
entry into the fresh request object, capitalizing each key; the original dict
is not retained or modified. -/
def addHeaders (h : HeadersMap) : HeadersMap :=
  h.map (fun p => (pyCapitalize p.1, p.2))

/-- The literal header dict of the runtime downloader (lines 117 and 133). -/
def MOZ : HeadersMap := [("User-Agent".toList, "Mozilla/5.0".toList)]

/-- Lookup of a header value by exact key. -/
def lookupHeader (k : Str) : HeadersMap → Option Str
  | [] => none
  | p :: rest => if p.1 = k then some p.2 else lookupHeader k rest

/-- One HTTP request issued by the program: the URL opened and the header map
stored inside the `Request` object (the capitalize-copy of what was passed). -/
structure Request where
  url : Str
  headers : HeadersMap
deriving DecidableEq

/-- A character the regex class of line 38 accepts inside a URL token:
anything but whitespace and the two quote characters. -/
def classC (c : Char) : Bool := !(pySpaceChar c || c = '\'' || c = '"')

/-- Does the token body (the part after `scheme://`) contain `.m3u8` starting
at offset at least 1?  This is the condition under which the backtracking of
the pattern of line 38 succeeds. -/
def bodyHasM3u8 : Str → Bool
  | [] => false
  | _ :: t => seqContains ".m3u8".toList t

/-- Match of the regex of line 38 anchored at the start of `s`:
the pattern is `https?://`, then a maximal nonempty run of `classC`
characters; the match succeeds exactly when `.m3u8` occurs in that run at
offset at least 1 (the `[^\s'"]+` group needs one character before the
literal `.m3u8`, and the trailing `[^\s'"]*` is greedy, so the reported match
always extends to the end of the run). -/
def matchAt (s : Str) : Option Str :=
  if "https://".toList.isPrefixOf s then
    let run := (s.drop 8).takeWhile classC
    if bodyHasM3u8 run then some ("https://".toList ++ run) else none
  else if "http://".toList.isPrefixOf s then
    let run := (s.drop 7).takeWhile classC
    if bodyHasM3u8 run then some ("http://".toList ++ run) else none
  else none

/-- `re.search` of the pattern of line 38: try each start position from the
left and return the first match. -/
def searchM3u8 : Str → Option Str
  | [] => none
  | c :: rest =>
    match matchAt (c :: rest) with
    | some m => some m
    | none => searchM3u8 rest

/-- Embedding of `extract_m3u8_from_embed` (lines 34-41).  Returns the
(unchanged) module header state, the single request issued, and either the
extracted URL or the message of the exception that propagates: a network
failure from `urlopen`, a `UnicodeDecodeError` from strict decoding, or the
`ValueError` raised when the regex finds nothing. -/
def extract_m3u8_from_embed (st : HeadersMap)
    (fetch : Str → Except Str (List Nat)) (embed_url : Str) :
    HeadersMap × List Request × Except Str Str :=
  (st, [⟨embed_url, addHeaders st⟩],
    match fetch embed_url with
    | Except.error e => Except.error e
    | Except.ok body =>
      match utf8Decode? body with
      | none => Except.error "UnicodeDecodeError".toList
      | some chars =>
        match searchM3u8 chars with
        | some m => Except.ok m
        | none => Except.error "No .m3u8 URL found in embed page".toList)

/-- `m3u8_url.rsplit('/', 1)[0] + '/'` (lines 50 and 121): the URL up to and
including its last `/`, or the whole URL plus `/` when it has none. -/
def rsplitBase (url : Str) : Str :=
  let afterSlash := url.reverse.dropWhile (fun c => c ≠ '/')
  match afterSlash with
  | [] => url ++ ['/']
  | _ :: _ => afterSlash.reverse

/-- The comprehension filter of lines 53-54 / 124-125: keep a playlist line
iff it is nonempty and does not start with `#`.  No whitespace stripping is
performed. -/
def keepLine (l : Str) : Bool := !l.isEmpty && !(['#'].isPrefixOf l)

/-- Line 52 / 123: a reference starting with `http` is used verbatim,
anything else goes through `urljoin` against the base. -/
def resolveRef (base : Str) (line : Str) : Str :=
  if "http".toList.isPrefixOf line then line else urljoin base line

/-- The list comprehension of lines 51-55 / 122-126, as a recursion over the
playlist lines. -/
def buildSegmentUrls (base : Str) : List Str → List Str
  | [] => []
  | line :: rest =>
      if keepLine line then resolveRef base line :: buildSegmentUrls base rest
      else buildSegmentUrls base rest

/-- The download-and-merge loop of lines 58-62 / 129-135: fetch each segment
in order with the given header dict, appending each response body to the
output file; the first failure aborts with that error (the partial file is
not represented: the caller only ever sees the `Except`).  Returns the
requests issued and either the final file contents or the error. -/
def fetchSegments (hdrs : HeadersMap) (fetch : Str → Except Str (List Nat)) :
    List Str → List Request × Except Str (List Nat)
  | [] => ([], Except.ok [])
  | u :: rest =>
    match fetch u with
    | Except.error e => ([⟨u, addHeaders hdrs⟩], Except.error e)
    | Except.ok bs =>
      let r := fetchSegments hdrs fetch rest
      (⟨u, addHeaders hdrs⟩ :: r.1, r.2.map (fun acc => bs ++ acc))

/-- Common body of the two `download_hls_sync` definitions, which differ only
in the header dict they pass to every `Request`: fetch the playlist, decode
it strictly, split lines, build segment URLs, then fetch and concatenate. -/
def download_hls_core (hdrs : HeadersMap)
    (fetch : Str → Except Str (List Nat)) (m3u8_url : Str) :
    List Request × Except Str (List Nat) :=
  match fetch m3u8_url with
  | Except.error e => ([⟨m3u8_url, addHeaders hdrs⟩], Except.error e)
  | Except.ok pbytes =>
    match utf8Decode? pbytes with
    | none => ([⟨m3u8_url, addHeaders hdrs⟩], Except.error "UnicodeDecodeError".toList)
    | some chars =>
      let segs := buildSegmentUrls (rsplitBase m3u8_url) (splitlines chars)
      let r := fetchSegments hdrs fetch segs
      (⟨m3u8_url, addHeaders hdrs⟩ :: r.1, r.2)

/-- The serving `download_hls_sync` (lines 44-62): the script blocks in
`run_until_disconnected()` at line 107 before the second script section runs,
so this is the downloader behind every handled message; every request carries
the module-level `HEADERS` dict, threaded here as `st`. -/
def download_hls_sync (st : HeadersMap)
    (fetch : Str → Except Str (List Nat)) (m3u8_url : Str) :
    List Request × Except Str (List Nat) :=
  download_hls_core st fetch m3u8_url

/-- The second variant's `download_hls_sync` (lines 115-135), reached only if
a disconnect lets execution continue past line 107: identical logic, but
every request carries the literal `User-Agent: Mozilla/5.0` dict. -/
def download_hls_sync_v2 (fetch : Str → Except Str (List Nat))
    (m3u8_url : Str) : List Request × Except Str (List Nat) :=
  download_hls_core MOZ fetch m3u8_url

/-- Terminal observable behaviour of a handler for one message:
no reply at all, an extraction-failure reply, a download-failure reply, or
delivery of the merged artifact bytes. -/
inductive Outcome where
  | ignored : Outcome
  | extractFailed : Str → Outcome
  | downloadFailed : Str → Outcome
  | delivered : List Nat → Outcome
deriving DecidableEq

/-- What one handler invocation did: final header state, the requests issued
in order, whether the embed extractor was invoked, and the outcome. -/
structure RunResult where
  state : HeadersMap
  requests : List Request
  extractorInvoked : Bool
  outcome : Outcome
deriving DecidableEq

/-- Lines 85-102: run the serving downloader (which sends the module header
dict) on a playlist URL; an exception becomes the download-failed reply,
success sends the file. -/
def runDownload (st : HeadersMap) (fetch : Str → Except Str (List Nat))
    (m3u8_url : Str) (inv : Bool) : RunResult :=
  let r := download_hls_sync st fetch m3u8_url
  match r.2 with
  | Except.error e => ⟨st, r.1, inv, Outcome.downloadFailed e⟩
  | Except.ok bs => ⟨st, r.1, inv, Outcome.delivered bs⟩

/-- Lines 149-166: the second variant's download path, calling the
Mozilla-dict downloader that is bound in the post-disconnect phase. -/
def runDownload_v2 (st : HeadersMap) (fetch : Str → Except Str (List Nat))
    (m3u8_url : Str) (inv : Bool) : RunResult :=
  let r := download_hls_sync_v2 fetch m3u8_url
  match r.2 with
  | Except.error e => ⟨st, r.1, inv, Outcome.downloadFailed e⟩
  | Except.ok bs => ⟨st, r.1, inv, Outcome.delivered bs⟩

/-- The serving handler (lines 70-102, registered on the first client):
strip the text; if it contains `.m3u8` treat it verbatim as the playlist URL;
otherwise if it contains `anime1u.com/embed/` run the extractor (any
exception there becomes the extract-failure reply); otherwise ignore the
message. -/
def on_message (st : HeadersMap) (fetch : Str → Except Str (List Nat))
    (raw_text : Str) : RunResult :=
  let text := pyStrip raw_text
  if seqContains ".m3u8".toList text then
    runDownload st fetch text false
  else if seqContains "anime1u.com/embed/".toList text then
    let e := extract_m3u8_from_embed st fetch text
    match e.2.2 with
    | Except.error msg => ⟨e.1, e.2.1, true, Outcome.extractFailed msg⟩
    | Except.ok m3u8_url =>
      let r := runDownload e.1 fetch m3u8_url true
      ⟨r.state, e.2.1 ++ r.requests, true, r.outcome⟩
  else ⟨st, [], false, Outcome.ignored⟩

/-- The second variant's handler (lines 143-166, registered on the second
client object, serving only in the post-disconnect phase): only the `.m3u8`
containment test, no embed support, Mozilla-dict downloads. -/
def on_message_v2 (st : HeadersMap) (fetch : Str → Except Str (List Nat))
    (raw_text : Str) : RunResult :=
  let text := pyStrip raw_text
  if seqContains ".m3u8".toList text then runDownload_v2 st fetch text false
  else ⟨st, [], false, Outcome.ignored⟩

example : searchM3u8 "see https://x.io/a.m3u8 ok".toList
    = some "https://x.io/a.m3u8".toList := by decide

example : searchM3u8 "a http://x.io/v.m3u8?tok=1\" z".toList
    = some "http://x.io/v.m3u8?tok=1".toList := by decide

example : searchM3u8 "https://x.io/nope.mp4".toList = none := by decide

example : utf8Decode? (asciiBytes "ab") = some "ab".toList := by decide

example : utf8Decode? [0xFF] = none := by decide

example : utf8Decode? [0xC3, 0xA9] = some ['é'] := by decide

example :
    (download_hls_sync (HEADERS ⟨"Mozilla/5.0".toList, [], []⟩)
      (fun u =>
        if u = "http://h/p/x.m3u8".toList then
          Except.ok (asciiBytes "#EXTM3U\ns1.ts\ns2.ts")
        else if u = "http://h/p/s1.ts".toList then Except.ok [1, 2]
        else if u = "http://h/p/s2.ts".toList then Except.ok [3]
        else Except.error "404".toList)
      "http://h/p/x.m3u8".toList).2 = Except.ok [1, 2, 3] := by decide

/-- Stated by the spec (§4.3) and claim C2: a playlist line counts as a
segment reference iff, after stripping surrounding whitespace, it is nonempty
and does not begin with `#`.  The code (lines 53-54) performs no stripping;
this definition exists only to compare the spec's words with the code. -/
def claimedSegmentLines (body : Str) : List Str :=
  (splitlines body).filter
    (fun l => !(pyStrip l).isEmpty && !(['#'].isPrefixOf (pyStrip l)))

/-- Stated by the spec (§4.2, strategy 1) and claim C5: a structured scan
returning the first markup element whose source attribute value contains
`.m3u8`, modelled as the first `src="..."` attribute whose quoted value
contains `.m3u8`.  The code has no structured scan; this definition exists
only to compare the spec's words with the code. -/
def specStructuredSource : Str → Option Str
  | [] => none
  | c :: rest =>
    if "src=\"".toList.isPrefixOf (c :: rest) then
      let v := ((c :: rest).drop 5).takeWhile (fun x => x ≠ '"')
      if seqContains ".m3u8".toList v then some v
      else specStructuredSource rest
    else specStructuredSource rest

/-- Declarative reading of one match of the regex of line 38 at the start of
`s`: a scheme `http://` or `https://`, then a token body of
non-whitespace-non-quote characters containing `.m3u8` at offset at least
one, extending to the next whitespace/quote boundary (or the end); the
reported match is scheme plus body. -/
def MatchTok (s m : Str) : Prop :=
  ∃ scheme body rest,
    (scheme = "http://".toList ∨ scheme = "https://".toList) ∧
    s = scheme ++ body ++ rest ∧
    (∀ c ∈ body, classC c = true) ∧
    (∃ a b, body = a ++ ".m3u8".toList ++ b ∧ a ≠ []) ∧
    classC (rest.headD ' ') = false ∧
    m = scheme ++ body

/-- A regex match occurring at offset `i` of `s`. -/
def MatchFromAt (s : Str) (i : Nat) (m : Str) : Prop := MatchTok (s.drop i) m

/-- C2 (counterexample): the claim predicts that a whitespace-only playlist
line yields no segment (it strips to empty), but the code performs no
stripping: the body with lines `#E`, a single space, and `seg1.ts` produces
two segments where the claim predicts one. -/
theorem segment_filter_strips_nothing_cex :
    (buildSegmentUrls (rsplitBase "https://h/a/x.m3u8".toList)
        (splitlines "#E\n \nseg1.ts".toList)).length = 2 ∧
    (claimedSegmentLines "#E\n \nseg1.ts".toList).length = 1 := by decide

/-- C2 (amended): the produced segment sequence has exactly one entry per raw
line that is nonempty and does not begin with `#` (no whitespace stripping),
in playlist line order, each resolved by `resolveRef`. -/
theorem segments_are_unstripped_filter_map (base : Str) (lines : List Str) :
    buildSegmentUrls base lines = (lines.filter keepLine).map (resolveRef base) := by
  induction lines with
  | nil => rfl
  | cons l rest ih =>
      by_cases h : keepLine l <;> simp [buildSegmentUrls, List.filter_cons, h, ih]

/-- C3 (counterexample): for the playlist URL `https://h/a/x.m3u8` and the
relative reference `../c`, the code resolves to `https://h/c` — `urljoin`
normalizes the `..` segment — and not to the claimed plain concatenation
`https://h/a/../c`. -/
theorem relative_ref_dot_normalization_cex :
    resolveRef (rsplitBase "https://h/a/x.m3u8".toList) "../c".toList
      = "https://h/c".toList ∧
    resolveRef (rsplitBase "https://h/a/x.m3u8".toList) "../c".toList
      ≠ rsplitBase "https://h/a/x.m3u8".toList ++ "../c".toList := by decide

/-- C5 (counterexample): a page whose structured `source` element references
`https://cdn.io/v/index.m3u8` but whose raw text contains an earlier
m3u8-looking token: the structured scan described by the spec would return
the element's URL, but extraction returns the earlier token — the code has no
structured scan and its regex match wins. -/
theorem structured_source_not_preferred_cex :
    specStructuredSource
        "see https://x.io/a.m3u8 here <source src=\"https://cdn.io/v/index.m3u8\">".toList
      = some "https://cdn.io/v/index.m3u8".toList ∧
    (extract_m3u8_from_embed []
        (fun _ => Except.ok (asciiBytes
          "see https://x.io/a.m3u8 here <source src=\"https://cdn.io/v/index.m3u8\">"))
        "https://anime1u.com/embed/1".toList).2.2
      = Except.ok "https://x.io/a.m3u8".toList ∧
    ("https://x.io/a.m3u8".toList : Str) ≠ "https://cdn.io/v/index.m3u8".toList := by
  decide

/-- C7 (counterexample): a direct-playlist job for `https://h/x.m3u8` issues
its playlist request with no Referer header at all, not with the claimed
`Referer: https://h/` — the runtime downloader always sends the fixed
`User-Agent: Mozilla/5.0` dict and no Referer derivation exists anywhere. -/
theorem referer_not_derived_cex :
    ((on_message (HEADERS ⟨"Mozilla/5.0".toList, [], []⟩)
        (fun _ => Except.error "e".toList) "https://h/x.m3u8".toList).requests.map
        (fun r => lookupHeader "Referer".toList r.headers))
      = [none] ∧
    (none : Option Str) ≠ some "https://h/".toList := by decide

/-- C8 (counterexample): a body consisting of an undecodable byte `0xFF`
followed by valid text containing an m3u8 URL makes extraction fail with
`UnicodeDecodeError`; on the same bytes without the bad byte it succeeds.
Decoding is strict — undecodable bytes are not dropped. -/
theorem strict_decode_fails_extraction_cex :
    (extract_m3u8_from_embed []
        (fun _ => Except.ok (0xFF :: asciiBytes " https://a.io/v.m3u8 "))
        "https://anime1u.com/embed/2".toList).2.2
      = Except.error "UnicodeDecodeError".toList ∧
    (extract_m3u8_from_embed []
        (fun _ => Except.ok (asciiBytes " https://a.io/v.m3u8 "))
        "https://anime1u.com/embed/2".toList).2.2
      = Except.ok "https://a.io/v.m3u8".toList := by decide

/-- Is an `Except` a success? -/
def exceptOk : Except Str (List Nat) → Bool
  | Except.ok _ => true
  | Except.error _ => false

/-- When every segment fetch succeeds, the download loop issues exactly one
request per segment in order and the merged file is the concatenation of the
response bodies in segment order. -/
theorem fetchSegments_all_ok (hdrs : HeadersMap)
    (fetch : Str → Except Str (List Nat)) (bodies : Str → List Nat) :
    ∀ segs : List Str, (∀ s ∈ segs, fetch s = Except.ok (bodies s)) →
    fetchSegments hdrs fetch segs =
      (segs.map (fun u => (⟨u, addHeaders hdrs⟩ : Request)),
        Except.ok ((segs.map bodies).flatten)) := by
  intro segs
  induction segs with
  | nil => intro _; rfl
  | cons u rest ih =>
      intro h
      have hu := h u (List.mem_cons_self u rest)
      have hr := ih (fun s hs => h s (List.mem_cons_of_mem u hs))
      simp [fetchSegments, hu, hr, Except.map]

/-- C1: for a job whose segment fetches all succeed, the bytes written to the
destination are the concatenation of the segment response bodies in ascending
index order, and the artifact length is the sum of the segment response
lengths. -/
theorem downloaded_artifact_is_ordered_concat (st : HeadersMap)
    (fetch : Str → Except Str (List Nat)) (url : Str) (pbytes : List Nat)
    (chars : Str) (bodies : Str → List Nat)
    (hp : fetch url = Except.ok pbytes)
    (hd : utf8Decode? pbytes = some chars)
    (hs : ∀ s ∈ buildSegmentUrls (rsplitBase url) (splitlines chars),
      fetch s = Except.ok (bodies s)) :
    (download_hls_sync st fetch url).2 =
      Except.ok (((buildSegmentUrls (rsplitBase url)
        (splitlines chars)).map bodies).flatten) ∧
    (((buildSegmentUrls (rsplitBase url) (splitlines chars)).map
        bodies).flatten).length =
      ((buildSegmentUrls (rsplitBase url) (splitlines chars)).map
        (fun s => (bodies s).length)).sum := by
  constructor
  · simp [download_hls_sync, download_hls_core, hp, hd,
      fetchSegments_all_ok st fetch bodies _ hs]
  · simp only [List.length_flatten, List.map_map]
    rfl

/-- A concrete network for the C1 witness: a playlist with one relative and
one absolute segment reference. -/
def c1fetch : Str → Except Str (List Nat) := fun u =>
  if u = "http://h/p/x.m3u8".toList then
    Except.ok (asciiBytes "#EXTM3U\ns1.ts\nhttp://h/q/s2.ts")
  else if u = "http://h/p/s1.ts".toList then Except.ok [1, 2]
  else if u = "http://h/q/s2.ts".toList then Except.ok [3, 4, 5]
  else Except.error "404".toList

/-- The response bodies of `c1fetch`'s segments. -/
def c1bodies : Str → List Nat := fun u =>
  if u = "http://h/p/s1.ts".toList then [1, 2] else [3, 4, 5]

/-- Witness for C1 at the concrete network `c1fetch`. -/
theorem downloaded_artifact_is_ordered_concat_applied :
    (download_hls_sync (HEADERS ⟨"Mozilla/5.0".toList, [], []⟩)
      c1fetch "http://h/p/x.m3u8".toList).2 =
      Except.ok (((buildSegmentUrls (rsplitBase "http://h/p/x.m3u8".toList)
        (splitlines "#EXTM3U\ns1.ts\nhttp://h/q/s2.ts".toList)).map
          c1bodies).flatten) ∧
    (((buildSegmentUrls (rsplitBase "http://h/p/x.m3u8".toList)
        (splitlines "#EXTM3U\ns1.ts\nhttp://h/q/s2.ts".toList)).map
          c1bodies).flatten).length =
      ((buildSegmentUrls (rsplitBase "http://h/p/x.m3u8".toList)
        (splitlines "#EXTM3U\ns1.ts\nhttp://h/q/s2.ts".toList)).map
          (fun s => (c1bodies s).length)).sum :=
  downloaded_artifact_is_ordered_concat
    (HEADERS ⟨"Mozilla/5.0".toList, [], []⟩)
    c1fetch "http://h/p/x.m3u8".toList
    (asciiBytes "#EXTM3U\ns1.ts\nhttp://h/q/s2.ts")
    "#EXTM3U\ns1.ts\nhttp://h/q/s2.ts".toList c1bodies rfl (by decide) (by decide)

/-- When segment `u` is the first to fail, the loop issues exactly one request
per segment up to and including `u` and stops with that error: segments after
`u` are never fetched and no merged file is produced. -/
theorem fetchSegments_first_fail (hdrs : HeadersMap)
    (fetch : Str → Except Str (List Nat)) (u : Str) (post : List Str) (e : Str)
    (hfail : fetch u = Except.error e) :
    ∀ pre : List Str, (∀ s ∈ pre, exceptOk (fetch s) = true) →
    fetchSegments hdrs fetch (pre ++ u :: post) =
      ((pre ++ [u]).map (fun s => (⟨s, addHeaders hdrs⟩ : Request)),
        Except.error e) := by
  intro pre
  induction pre with
  | nil => intro _; simp [fetchSegments, hfail]
  | cons s rest ih =>
      intro h
      have hsok := h s (List.mem_cons_self s rest)
      have hr := ih (fun x hx => h x (List.mem_cons_of_mem s hx))
      cases hx : fetch s with
      | error msg => rw [hx] at hsok; simp [exceptOk] at hsok
      | ok bs => simp [fetchSegments, hx, hr, Except.map]

/-- C4: if one segment fetch fails, the job fails: each network operation up
to the failure was attempted exactly once (the playlist, then the segments up
to and including the failing one, in order, with nothing after it), the
downloader surfaces the error rather than an artifact, and the handler
replies with a download failure instead of delivering a file. -/
theorem segment_failure_aborts_job
    (st : HeadersMap) (fetch : Str → Except Str (List Nat)) (raw url : Str)
    (pbytes : List Nat) (chars : Str) (pre post : List Str) (u e : Str)
    (hstrip : pyStrip raw = url)
    (hm : seqContains ".m3u8".toList url = true)
    (hp : fetch url = Except.ok pbytes)
    (hd : utf8Decode? pbytes = some chars)
    (hsegs : buildSegmentUrls (rsplitBase url) (splitlines chars)
      = pre ++ u :: post)
    (hok : ∀ s ∈ pre, exceptOk (fetch s) = true)
    (hfail : fetch u = Except.error e) :
    (download_hls_sync st fetch url).1.map Request.url
      = url :: (pre ++ [u]) ∧
    (download_hls_sync st fetch url).2 = Except.error e ∧
    (on_message st fetch raw).outcome = Outcome.downloadFailed e := by
  have h1 := fetchSegments_first_fail st fetch u post e hfail pre hok
  have hcore : download_hls_sync st fetch url =
      ((⟨url, addHeaders st⟩ : Request) ::
        (pre ++ [u]).map (fun s => (⟨s, addHeaders st⟩ : Request)),
        Except.error e) := by
    simp [download_hls_sync, download_hls_core, hp, hd, hsegs, h1]
  refine ⟨?_, ?_, ?_⟩
  · rw [hcore]
    simp [List.map_map, Function.comp_def]
  · simp [hcore]
  · simp only [on_message, hstrip, hm, if_true]
    simp [runDownload, hcore]

/-- A concrete network for the C4 witness: three segments, the second of
which fails. -/
def c4fetch : Str → Except Str (List Nat) := fun u =>
  if u = "http://h/p/x.m3u8".toList then
    Except.ok (asciiBytes "s1.ts\ns2.ts\ns3.ts")
  else if u = "http://h/p/s1.ts".toList then Except.ok [9]
  else Except.error "boom".toList

/-- Witness for C4: the second of three segments fails; the third is never
fetched and the handler reports the failure. -/
theorem segment_failure_aborts_job_applied :
    (download_hls_sync [] c4fetch "http://h/p/x.m3u8".toList).1.map
        Request.url
      = "http://h/p/x.m3u8".toList ::
        ("http://h/p/s1.ts".toList :: ["http://h/p/s2.ts".toList]) ∧
    (download_hls_sync [] c4fetch "http://h/p/x.m3u8".toList).2
      = Except.error "boom".toList ∧
    (on_message [] c4fetch "http://h/p/x.m3u8".toList).outcome
      = Outcome.downloadFailed "boom".toList := by
  have h := segment_failure_aborts_job [] c4fetch "http://h/p/x.m3u8".toList
    "http://h/p/x.m3u8".toList (asciiBytes "s1.ts\ns2.ts\ns3.ts")
    "s1.ts\ns2.ts\ns3.ts".toList ["http://h/p/s1.ts".toList]
    ["http://h/p/s3.ts".toList] "http://h/p/s2.ts".toList "boom".toList
    (by decide) (by decide) rfl (by decide) (by decide) (by decide) (by decide)
  simpa using h

/-- C8 (amended): decoding of the embed page body is strict UTF-8: a body
that does not decode makes the extraction fail with `UnicodeDecodeError`
(reported as an extraction failure); undecodable bytes are never dropped. -/
theorem undecodable_body_aborts_extraction (st : HeadersMap)
    (fetch : Str → Except Str (List Nat)) (url : Str) (body : List Nat)
    (hf : fetch url = Except.ok body) (hd : utf8Decode? body = none) :
    (extract_m3u8_from_embed st fetch url).2.2
      = Except.error "UnicodeDecodeError".toList := by
  simp [extract_m3u8_from_embed, hf, hd]

/-- Witness for the amended C8 at a body whose third byte is a bare
continuation byte. -/
theorem undecodable_body_aborts_extraction_applied :
    (extract_m3u8_from_embed []
        (fun _ => Except.ok [0x68, 0x69, 0x80])
        "https://anime1u.com/embed/3".toList).2.2
      = Except.error "UnicodeDecodeError".toList :=
  undecodable_body_aborts_extraction [] _ "https://anime1u.com/embed/3".toList
    [0x68, 0x69, 0x80] rfl (by decide)

/-- The state a download run returns is exactly the state it was given. -/
theorem runDownload_state (st : HeadersMap)
    (fetch : Str → Except Str (List Nat)) (u : Str) (i : Bool) :
    (runDownload st fetch u i).state = st := by
  cases h : (download_hls_sync st fetch u).2 <;> simp [runDownload, h]

/-- The requests of a download run are those of the downloader itself. -/
theorem runDownload_requests (st : HeadersMap)
    (fetch : Str → Except Str (List Nat)) (u : Str) (i : Bool) :
    (runDownload st fetch u i).requests
      = (download_hls_sync st fetch u).1 := by
  cases h : (download_hls_sync st fetch u).2 <;> simp [runDownload, h]

/-- The invoked-flag a download run returns is the one it was given. -/
theorem runDownload_inv (st : HeadersMap)
    (fetch : Str → Except Str (List Nat)) (u : Str) (i : Bool) :
    (runDownload st fetch u i).extractorInvoked = i := by
  cases h : (download_hls_sync st fetch u).2 <;> simp [runDownload, h]

/-- The state of a post-disconnect download run is the state it was given. -/
theorem runDownload_v2_state (st : HeadersMap)
    (fetch : Str → Except Str (List Nat)) (u : Str) (i : Bool) :
    (runDownload_v2 st fetch u i).state = st := by
  cases h : (download_hls_sync_v2 fetch u).2 <;> simp [runDownload_v2, h]

/-- The requests of a post-disconnect download run are the downloader's. -/
theorem runDownload_v2_requests (st : HeadersMap)
    (fetch : Str → Except Str (List Nat)) (u : Str) (i : Bool) :
    (runDownload_v2 st fetch u i).requests
      = (download_hls_sync_v2 fetch u).1 := by
  cases h : (download_hls_sync_v2 fetch u).2 <;> simp [runDownload_v2, h]

/-- The first handler leaves the header state unchanged on every path. -/
theorem on_message_state (st : HeadersMap)
    (fetch : Str → Except Str (List Nat)) (t : Str) :
    (on_message st fetch t).state = st := by
  unfold on_message
  dsimp only
  split
  · exact runDownload_state st fetch (pyStrip t) false
  · split
    · split
      · simp [extract_m3u8_from_embed]
      · simp [runDownload_state, extract_m3u8_from_embed]
    · rfl

/-- The second handler leaves the header state unchanged on every path. -/
theorem on_message_v2_state (st : HeadersMap)
    (fetch : Str → Except Str (List Nat)) (t : Str) :
    (on_message_v2 st fetch t).state = st := by
  unfold on_message_v2
  dsimp only
  split
  · exact runDownload_v2_state st fetch (pyStrip t) false
  · rfl

/-- Every request of the segment loop carries the capitalize-copy of the
dict it was given. -/
theorem fetchSegments_headers (hdrs : HeadersMap)
    (fetch : Str → Except Str (List Nat)) :
    ∀ segs : List Str, ((fetchSegments hdrs fetch segs).1).all
      (fun r => r.headers == addHeaders hdrs) = true := by
  intro segs
  induction segs with
  | nil => rfl
  | cons u rest ih => cases h : fetch u <;> simp_all [fetchSegments, h]

/-- Every request of one `download_hls_core` run carries the capitalize-copy
of the dict it was given. -/
theorem download_core_headers (hdrs : HeadersMap)
    (fetch : Str → Except Str (List Nat)) (u : Str) :
    ((download_hls_core hdrs fetch u).1).all
      (fun r => r.headers == addHeaders hdrs) = true := by
  cases hp : fetch u with
  | error e => simp [download_hls_core, hp]
  | ok pbytes =>
      cases hd : utf8Decode? pbytes <;>
        simp [download_hls_core, hp, hd, fetchSegments_headers]

/-- Every request the serving handler issues — embed page, playlist and
segment fetches alike — carries the capitalize-copy of the module header
dict. -/
theorem on_message_requests_headers (st : HeadersMap)
    (fetch : Str → Except Str (List Nat)) (t : Str) :
    (on_message st fetch t).requests.all
      (fun r => r.headers == addHeaders st) = true := by
  unfold on_message
  dsimp only
  split
  · rw [runDownload_requests]
    exact download_core_headers st fetch (pyStrip t)
  · split
    · split
      · simp [extract_m3u8_from_embed]
      · simp only [List.all_append, Bool.and_eq_true, runDownload_requests]
        constructor
        · simp [extract_m3u8_from_embed]
        · exact download_core_headers st fetch _
    · rfl

/-- Every request the post-disconnect handler issues carries the
capitalize-copy of the literal Mozilla dict. -/
theorem on_message_v2_requests_headers (st : HeadersMap)
    (fetch : Str → Except Str (List Nat)) (t : Str) :
    (on_message_v2 st fetch t).requests.all
      (fun r => r.headers == addHeaders MOZ) = true := by
  unfold on_message_v2
  dsimp only
  split
  · rw [runDownload_v2_requests]
    exact download_core_headers MOZ fetch (pyStrip t)
  · rfl

/-- C9: the base header dict is never mutated after initialization —
processing any sequence of messages through the serving handler leaves it
unchanged, and the post-disconnect handler preserves it too — and every
request carries a fresh capitalize-copy (of the base dict for the serving
handler, of the literal Mozilla dict for the post-disconnect one), never the
shared object itself, so no job's header use can alter another job's
headers. -/
theorem base_headers_immutable_and_copied (st : HeadersMap)
    (fetch : Str → Except Str (List Nat)) (msgs : List Str) (t : Str) :
    (on_message st fetch t).state = st ∧
    (on_message_v2 st fetch t).state = st ∧
    msgs.foldl (fun s r => (on_message s fetch r).state) st = st ∧
    (on_message st fetch t).requests.all
      (fun r => r.headers == addHeaders st) = true ∧
    (on_message_v2 st fetch t).requests.all
      (fun r => r.headers == addHeaders MOZ) = true := by
  refine ⟨on_message_state st fetch t, on_message_v2_state st fetch t, ?_,
    on_message_requests_headers st fetch t,
    on_message_v2_requests_headers st fetch t⟩
  induction msgs with
  | nil => rfl
  | cons m rest ih =>
      rw [List.foldl_cons, on_message_state]
      exact ih

/-- The first request (the playlist fetch) of a download run is always the
given URL with the capitalize-copy of the given dict. -/
theorem download_core_head (hdrs : HeadersMap)
    (fetch : Str → Except Str (List Nat)) (u : Str) :
    ((download_hls_core hdrs fetch u).1).head?
      = some ⟨u, addHeaders hdrs⟩ := by
  cases hp : fetch u with
  | error e => simp [download_hls_core, hp]
  | ok pbytes =>
      cases hd : utf8Decode? pbytes <;> simp [download_hls_core, hp, hd]

/-- C10: if the stripped text contains `.m3u8` it is used verbatim as the
playlist URL — the first request of the job opens exactly that text — and the
embed extractor is never invoked, even when the text also matches the
embed-page pattern; a text matching neither pattern is ignored by both
handlers with no reply, no request and no error. -/
theorem direct_playlist_precedence (st : HeadersMap)
    (fetch : Str → Except Str (List Nat)) (raw : Str) :
    (seqContains ".m3u8".toList (pyStrip raw) = true →
      (on_message st fetch raw).extractorInvoked = false ∧
      (on_message st fetch raw).requests.head?
        = some ⟨pyStrip raw, addHeaders st⟩ ∧
      (on_message_v2 st fetch raw).requests.head?
        = some ⟨pyStrip raw, addHeaders MOZ⟩) ∧
    (seqContains ".m3u8".toList (pyStrip raw) = false →
      seqContains "anime1u.com/embed/".toList (pyStrip raw) = false →
      (on_message st fetch raw).outcome = Outcome.ignored ∧
      (on_message st fetch raw).requests = [] ∧
      (on_message_v2 st fetch raw).outcome = Outcome.ignored ∧
      (on_message_v2 st fetch raw).requests = []) := by
  constructor
  · intro h1
    refine ⟨?_, ?_, ?_⟩
    · unfold on_message
      dsimp only
      rw [if_pos h1]
      exact runDownload_inv st fetch (pyStrip raw) false
    · unfold on_message
      dsimp only
      rw [if_pos h1, runDownload_requests]
      exact download_core_head st fetch (pyStrip raw)
    · unfold on_message_v2
      dsimp only
      rw [if_pos h1, runDownload_v2_requests]
      exact download_core_head MOZ fetch (pyStrip raw)
  · intro h1 h2
    unfold on_message on_message_v2
    dsimp only
    rw [if_neg (by simpa using h1), if_neg (by simpa using h2),
      if_neg (by simpa using h1)]
    exact ⟨rfl, rfl, rfl, rfl⟩

/-- Witness for C10 at a text matching both the `.m3u8` and the embed-page
patterns: the extractor is not invoked and the text itself is fetched as the
playlist. -/
theorem direct_playlist_precedence_applied :
    (on_message [] (fun _ => Except.error "e".toList)
        "https://anime1u.com/embed/7.m3u8".toList).extractorInvoked = false ∧
    (on_message [] (fun _ => Except.error "e".toList)
        "https://anime1u.com/embed/7.m3u8".toList).requests.head?
      = some ⟨"https://anime1u.com/embed/7.m3u8".toList, addHeaders []⟩ ∧
    (on_message_v2 [] (fun _ => Except.error "e".toList)
        "https://anime1u.com/embed/7.m3u8".toList).requests.head?
      = some ⟨"https://anime1u.com/embed/7.m3u8".toList, addHeaders MOZ⟩ := by
  have h := (direct_playlist_precedence [] (fun _ => Except.error "e".toList)
    "https://anime1u.com/embed/7.m3u8".toList).1 (by decide)
  simpa using h

/-- Substring containment is equivalent to an append decomposition. -/
theorem seqContains_iff (needle : Str) :
    ∀ hay : Str, seqContains needle hay = true ↔
      ∃ a b, hay = a ++ needle ++ b := by
  intro hay
  induction hay with
  | nil =>
      simp only [seqContains, List.isEmpty_iff]
      constructor
      · intro h; exact ⟨[], [], by simp [h]⟩
      · rintro ⟨a, b, hab⟩
        rcases List.append_eq_nil.mp (List.append_eq_nil.mp hab.symm).1 with ⟨_, h2⟩
        exact h2
  | cons c rest ih =>
      simp only [seqContains, Bool.or_eq_true]
      constructor
      · rintro (h | h)
        · obtain ⟨t, ht⟩ := List.isPrefixOf_iff_prefix.mp h
          exact ⟨[], t, by simp [← ht]⟩
        · obtain ⟨a, b, hab⟩ := ih.mp h
          exact ⟨c :: a, b, by simp [hab]⟩
      · rintro ⟨a, b, hab⟩
        cases a with
        | nil =>
            left
            exact List.isPrefixOf_iff_prefix.mpr ⟨b, by simpa using hab.symm⟩
        | cons a0 a' =>
            right
            refine ih.mpr ⟨a', b, ?_⟩
            have h2 : c = a0 ∧ rest = a' ++ (needle ++ b) := by simpa using hab
            simp [h2.2]

/-- `takeWhile` walks through a prefix all of whose elements satisfy `p`. -/
theorem takeWhile_append_of_all (p : Char → Bool) (xs ys : Str)
    (h : ∀ x ∈ xs, p x = true) :
    (xs ++ ys).takeWhile p = xs ++ ys.takeWhile p := by
  induction xs with
  | nil => simp
  | cons a xs ih =>
      have ha := h a (List.mem_cons_self a xs)
      simp [List.takeWhile_cons, ha,
        ih (fun x hx => h x (List.mem_cons_of_mem a hx))]

/-- The head surviving a `dropWhile` fails the predicate. -/
theorem dropWhile_head_not (p : Char → Bool) :
    ∀ (l : Str) (c : Char) (t : Str), l.dropWhile p = c :: t → p c = false := by
  intro l
  induction l with
  | nil => intro c t h; simp at h
  | cons a l ih =>
      intro c t h
      rw [List.dropWhile_cons] at h
      by_cases hp : p a
      · rw [if_pos hp] at h; exact ih c t h
      · rw [if_neg hp] at h
        cases h
        simpa using hp

/-- Soundness of the anchored matcher: a reported match has the declarative
shape of one regex match. -/
theorem matchAt_sound (s m : Str) (h : matchAt s = some m) : MatchTok s m := by
  unfold matchAt at h
  by_cases h8 : "https://".toList.isPrefixOf s
  · rw [if_pos h8] at h
    by_cases hr : bodyHasM3u8 ((s.drop 8).takeWhile classC)
    · rw [if_pos hr] at h
      obtain ⟨t, ht⟩ := List.isPrefixOf_iff_prefix.mp h8
      have hdrop : s.drop 8 = t := by
        rw [← ht]
        have : ("https://".toList).length = 8 := by decide
        rw [← this, List.drop_left]
      rw [hdrop] at h hr
      obtain ⟨r0, tr, hrun⟩ : ∃ r0 tr, t.takeWhile classC = r0 :: tr := by
        rcases hc : t.takeWhile classC with _ | ⟨r0, tr⟩
        · rw [hc] at hr; simp [bodyHasM3u8] at hr
        · exact ⟨r0, tr, rfl⟩
      refine ⟨"https://".toList, t.takeWhile classC, t.dropWhile classC,
        Or.inr rfl, ?_, ?_, ?_, ?_, ?_⟩
      · rw [List.append_assoc, List.takeWhile_append_dropWhile, ht]
      · intro c hc; exact List.mem_takeWhile_imp hc
      · rw [hrun] at hr ⊢
        simp only [bodyHasM3u8] at hr
        obtain ⟨a, b, hab⟩ := (seqContains_iff ".m3u8".toList tr).mp hr
        exact ⟨r0 :: a, b, by simp [hab], by simp⟩
      · rcases hd : t.dropWhile classC with _ | ⟨c, u⟩
        · simp; decide
        · simpa using dropWhile_head_not classC t c u hd
      · exact (Option.some.injEq _ _).mp h |>.symm
    · rw [if_neg hr] at h; exact Option.noConfusion h
  · rw [if_neg h8] at h
    by_cases h7 : "http://".toList.isPrefixOf s
    · rw [if_pos h7] at h
      by_cases hr : bodyHasM3u8 ((s.drop 7).takeWhile classC)
      · rw [if_pos hr] at h
        obtain ⟨t, ht⟩ := List.isPrefixOf_iff_prefix.mp h7
        have hdrop : s.drop 7 = t := by
          rw [← ht]
          have : ("http://".toList).length = 7 := by decide
          rw [← this, List.drop_left]
        rw [hdrop] at h hr
        obtain ⟨r0, tr, hrun⟩ : ∃ r0 tr, t.takeWhile classC = r0 :: tr := by
          rcases hc : t.takeWhile classC with _ | ⟨r0, tr⟩
          · rw [hc] at hr; simp [bodyHasM3u8] at hr
          · exact ⟨r0, tr, rfl⟩
        refine ⟨"http://".toList, t.takeWhile classC, t.dropWhile classC,
          Or.inl rfl, ?_, ?_, ?_, ?_, ?_⟩
        · rw [List.append_assoc, List.takeWhile_append_dropWhile, ht]
        · intro c hc; exact List.mem_takeWhile_imp hc
        · rw [hrun] at hr ⊢
          simp only [bodyHasM3u8] at hr
          obtain ⟨a, b, hab⟩ := (seqContains_iff ".m3u8".toList tr).mp hr
          exact ⟨r0 :: a, b, by simp [hab], by simp⟩
        · rcases hd : t.dropWhile classC with _ | ⟨c, u⟩
          · simp; decide
          · simpa using dropWhile_head_not classC t c u hd
        · exact (Option.some.injEq _ _).mp h |>.symm
      · rw [if_neg hr] at h; exact Option.noConfusion h
    · rw [if_neg h7] at h; exact Option.noConfusion h

/-- Completeness of the anchored matcher: the declarative match shape is
reported by the matcher. -/
theorem matchAt_complete (s m : Str) (h : MatchTok s m) : matchAt s = some m := by
  obtain ⟨scheme, body, rest, hsch, hs, hcl, hm3, hbound, hm⟩ := h
  have htake : (body ++ rest).takeWhile classC = body := by
    rw [takeWhile_append_of_all classC body rest hcl]
    rcases rest with _ | ⟨c, u⟩
    · simp
    · have hc : classC c = false := by simpa using hbound
      simp [List.takeWhile_cons, hc]
  have hbody8 : bodyHasM3u8 body = true := by
    obtain ⟨a, b, hab, ha⟩ := hm3
    rcases a with _ | ⟨a0, a'⟩
    · exact absurd rfl ha
    · rw [hab]
      simp only [List.cons_append, bodyHasM3u8]
      exact (seqContains_iff ".m3u8".toList _).mpr ⟨a', b, by simp⟩
  rcases hsch with h7 | h8
  · subst h7 hm hs
    have hpre7 : "http://".toList.isPrefixOf
        ("http://".toList ++ body ++ rest) = true :=
      List.isPrefixOf_iff_prefix.mpr ⟨body ++ rest, by simp⟩
    have hpre8 : "https://".toList.isPrefixOf
        ("http://".toList ++ body ++ rest) = false := by
      cases hx : "https://".toList.isPrefixOf ("http://".toList ++ body ++ rest) with
      | false => rfl
      | true =>
          exfalso
          obtain ⟨t, ht⟩ := List.isPrefixOf_iff_prefix.mp hx
          rw [show "https://".toList = ['h','t','t','p','s',':','/','/'] from rfl,
            show "http://".toList = ['h','t','t','p',':','/','/'] from rfl] at ht
          simp only [List.cons_append, List.append_assoc] at ht
          injection ht with e1 ht; injection ht with e2 ht
          injection ht with e3 ht; injection ht with e4 ht
          injection ht with e5 ht
          exact absurd e5 (by decide)
    have hdrop : (("http://".toList ++ body) ++ rest).drop 7 = body ++ rest := by
      rw [List.append_assoc]
      have h7len : ("http://".toList).length = 7 := by decide
      rw [← h7len, List.drop_left]
    unfold matchAt
    rw [if_neg (by simp [hpre8]), if_pos (by simp [hpre7]), hdrop, htake,
      if_pos hbody8]
  · subst h8 hm hs
    have hpre8 : "https://".toList.isPrefixOf
        ("https://".toList ++ body ++ rest) = true :=
      List.isPrefixOf_iff_prefix.mpr ⟨body ++ rest, by simp⟩
    have hdrop : (("https://".toList ++ body) ++ rest).drop 8 = body ++ rest := by
      rw [List.append_assoc]
      have h8len : ("https://".toList).length = 8 := by decide
      rw [← h8len, List.drop_left]
    unfold matchAt
    rw [if_pos (by simp [hpre8]), hdrop, htake, if_pos hbody8]

/-- A successful search is a match at some position, with no match at any
earlier position. -/
theorem searchM3u8_some :
    ∀ s m : Str, searchM3u8 s = some m →
      ∃ i, matchAt (s.drop i) = some m ∧
        ∀ j, j < i → matchAt (s.drop j) = none := by
  intro s
  induction s with
  | nil => intro m h; simp [searchM3u8] at h
  | cons c rest ih =>
      intro m h
      rcases hm : matchAt (c :: rest) with _ | m0
      · simp only [searchM3u8, hm] at h
        obtain ⟨i, h1, h2⟩ := ih m h
        refine ⟨i + 1, by simpa using h1, ?_⟩
        intro j hj
        cases j with
        | zero => simpa using hm
        | succ j' =>
            have hj' : j' < i := by omega
            simpa using h2 j' hj'
      · simp only [searchM3u8, hm] at h
        injection h with h'
        subst h'
        exact ⟨0, by simpa using hm, fun j hj => absurd hj (Nat.not_lt_zero j)⟩

/-- A failed search means no position matches. -/
theorem searchM3u8_none :
    ∀ s : Str, searchM3u8 s = none → ∀ i, matchAt (s.drop i) = none := by
  intro s
  induction s with
  | nil =>
      intro _ i
      rw [List.drop_nil]
      decide
  | cons c rest ih =>
      intro h i
      have h0 : matchAt (c :: rest) = none := by
        rcases hm : matchAt (c :: rest) with _ | m0
        · rfl
        · simp only [searchM3u8, hm] at h
          exact Option.noConfusion h
      have h1 : searchM3u8 rest = none := by
        simpa only [searchM3u8, h0] using h
      cases i with
      | zero => simpa using h0
      | succ i' => simpa using ih h1 i'

/-- A successful extraction is the leftmost regex match of the decoded page.
Shared between the fallback and precedence analyses. -/
theorem extract_ok_leftmost (st : HeadersMap)
    (fetch : Str → Except Str (List Nat)) (embed_url : Str) (body : List Nat)
    (chars u : Str)
    (hf : fetch embed_url = Except.ok body)
    (hd : utf8Decode? body = some chars)
    (hok : (extract_m3u8_from_embed st fetch embed_url).2.2 = Except.ok u) :
    ∃ i, MatchFromAt chars i u ∧
      ∀ j, j < i → ∀ m, ¬ MatchFromAt chars j m := by
  have hs : searchM3u8 chars = some u := by
    rcases hsm : searchM3u8 chars with _ | m0
    · simp [extract_m3u8_from_embed, hf, hd, hsm] at hok
    · have he : m0 = u := by
        simpa [extract_m3u8_from_embed, hf, hd, hsm] using hok
      rw [he]
  obtain ⟨i, h1, h2⟩ := searchM3u8_some chars u hs
  refine ⟨i, matchAt_sound _ _ h1, ?_⟩
  intro j hj m hm
  have hc := matchAt_complete _ _ hm
  rw [h2 j hj] at hc
  exact Option.noConfusion hc

/-- C5 (amended): extraction performs no structured scan: whenever it
succeeds it returns the leftmost whitespace/quote-bounded http(s) m3u8 token
of the decoded page text, wherever any structured source element sits; a
structured element's URL is returned exactly when it is that leftmost
token. -/
theorem extraction_returns_leftmost_token (st : HeadersMap)
    (fetch : Str → Except Str (List Nat)) (embed_url : Str) (body : List Nat)
    (chars u : Str)
    (hf : fetch embed_url = Except.ok body)
    (hd : utf8Decode? body = some chars)
    (hok : (extract_m3u8_from_embed st fetch embed_url).2.2 = Except.ok u) :
    ∃ i, MatchFromAt chars i u ∧
      ∀ j, j < i → ∀ m, ¬ MatchFromAt chars j m :=
  extract_ok_leftmost st fetch embed_url body chars u hf hd hok

/-- Witness for the amended C5 at a concrete page. -/
theorem extraction_returns_leftmost_token_applied :
    ∃ i, MatchFromAt "see https://x.io/b.m3u8 end".toList i
        "https://x.io/b.m3u8".toList ∧
      ∀ j, j < i → ∀ m, ¬ MatchFromAt "see https://x.io/b.m3u8 end".toList j m :=
  extraction_returns_leftmost_token []
    (fun _ => Except.ok (asciiBytes "see https://x.io/b.m3u8 end"))
    "https://anime1u.com/embed/5".toList
    (asciiBytes "see https://x.io/b.m3u8 end")
    "see https://x.io/b.m3u8 end".toList "https://x.io/b.m3u8".toList
    rfl (by decide) (by decide)

/-- C6: on a page with no structured source match, extraction issues exactly
one request (no retry); a success is the leftmost whitespace/quote-bounded
http(s) m3u8 token of the decoded text, and when no such token exists it
fails with the no-URL error (the spec's ExtractionError). -/
theorem fallback_token_or_extraction_error (st : HeadersMap)
    (fetch : Str → Except Str (List Nat)) (embed_url : Str) (body : List Nat)
    (chars : Str)
    (hf : fetch embed_url = Except.ok body)
    (hd : utf8Decode? body = some chars)
    (hns : specStructuredSource chars = none) :
    (extract_m3u8_from_embed st fetch embed_url).2.1
      = [⟨embed_url, addHeaders st⟩] ∧
    (∀ u, (extract_m3u8_from_embed st fetch embed_url).2.2 = Except.ok u →
      ∃ i, MatchFromAt chars i u ∧
        ∀ j, j < i → ∀ m, ¬ MatchFromAt chars j m) ∧
    ((∀ i m, ¬ MatchFromAt chars i m) →
      (extract_m3u8_from_embed st fetch embed_url).2.2
        = Except.error "No .m3u8 URL found in embed page".toList) := by
  refine ⟨rfl, ?_, ?_⟩
  · intro u hok
    exact extract_ok_leftmost st fetch embed_url body chars u hf hd hok
  · intro hno
    rcases hsm : searchM3u8 chars with _ | m0
    · simp [extract_m3u8_from_embed, hf, hd, hsm]
    · exfalso
      obtain ⟨i, h1, _⟩ := searchM3u8_some chars m0 hsm
      exact hno i m0 (matchAt_sound _ _ h1)

/-- Witness for C6 at a page with no token at all. -/
theorem fallback_token_or_extraction_error_applied :
    (extract_m3u8_from_embed []
        (fun _ => Except.ok (asciiBytes "<p>nothing here</p>"))
        "https://anime1u.com/embed/6".toList).2.1
      = [⟨"https://anime1u.com/embed/6".toList, addHeaders []⟩] :=
  (fallback_token_or_extraction_error []
    (fun _ => Except.ok (asciiBytes "<p>nothing here</p>"))
    "https://anime1u.com/embed/6".toList (asciiBytes "<p>nothing here</p>")
    "<p>nothing here</p>".toList rfl (by decide) (by decide)).1

/-- The Referer entry of the capitalize-copy of the module dict exists iff a
REFERER is configured, and then equals the configured constant. -/
theorem lookupHeader_referer (cfg : EnvConfig) :
    lookupHeader "Referer".toList (addHeaders (HEADERS cfg))
      = if cfg.REFERER ≠ [] then some cfg.REFERER else none := by
  by_cases hre : cfg.REFERER = []
  · by_cases hco : cfg.COOKIES = []
    · have hH : HEADERS cfg = [("User-Agent".toList, cfg.USER_AGENT)] := by
        unfold HEADERS
        dsimp only
        rw [if_neg (fun hcon => hcon hco), if_neg (fun hcon => hcon hre)]
      rw [hH, if_neg (fun hcon => hcon hre)]
      rfl
    · have hH : HEADERS cfg = [("User-Agent".toList, cfg.USER_AGENT),
          ("Cookie".toList, cfg.COOKIES)] := by
        unfold HEADERS
        dsimp only
        rw [if_pos hco, if_neg (fun hcon => hcon hre)]
        simp
      rw [hH, if_neg (fun hcon => hcon hre)]
      rfl
  · by_cases hco : cfg.COOKIES = []
    · have hH : HEADERS cfg = [("User-Agent".toList, cfg.USER_AGENT),
          ("Referer".toList, cfg.REFERER)] := by
        unfold HEADERS
        dsimp only
        rw [if_neg (fun hcon => hcon hco), if_pos hre]
        simp
      rw [hH, if_pos hre]
      rfl
    · have hH : HEADERS cfg = [("User-Agent".toList, cfg.USER_AGENT),
          ("Referer".toList, cfg.REFERER), ("Cookie".toList, cfg.COOKIES)] := by
        unfold HEADERS
        dsimp only
        rw [if_pos hco, if_pos hre]
        simp
      rw [hH, if_pos hre]
      rfl

/-- C7 (amended): no per-job Referer derivation exists.  Every request of
every job — the embed page fetch and all playlist and segment fetches — is
issued with a fresh capitalize-copy of the single module-level `HEADERS`
dict built once from the environment: its Referer entry exists only when a
REFERER is configured, and then equals that configured constant for every
job, independent of the playlist or embed URL; it is never derived as
`scheme://host/` of the playlist URL nor set to the embed page URL. -/
theorem requests_use_module_headers (cfg : EnvConfig)
    (fetch : Str → Except Str (List Nat)) (url embed_url : Str) (r : Request)
    (hr : r ∈ (download_hls_sync (HEADERS cfg) fetch url).1) :
    r.headers = addHeaders (HEADERS cfg) ∧
    lookupHeader "Referer".toList r.headers
      = (if cfg.REFERER ≠ [] then some cfg.REFERER else none) ∧
    (extract_m3u8_from_embed (HEADERS cfg) fetch embed_url).2.1
      = [⟨embed_url, addHeaders (HEADERS cfg)⟩] := by
  have hall := download_core_headers (HEADERS cfg) fetch url
  rw [List.all_eq_true] at hall
  have h1 := hall r hr
  simp only [beq_iff_eq] at h1
  refine ⟨h1, ?_, rfl⟩
  rw [h1, lookupHeader_referer]

/-- Witness for the amended C7 at a configured Referer: the request carries
the configured constant (not a URL-derived one), and with no configured
Referer the request carries none. -/
theorem requests_use_module_headers_applied :
    (⟨"https://h/x.m3u8".toList,
        addHeaders (HEADERS ⟨"UA".toList, "https://cfg.example/".toList, []⟩)⟩
      : Request).headers
      = addHeaders (HEADERS ⟨"UA".toList, "https://cfg.example/".toList, []⟩) ∧
    lookupHeader "Referer".toList
      (addHeaders (HEADERS ⟨"UA".toList, "https://cfg.example/".toList, []⟩))
      = some "https://cfg.example/".toList ∧
    (extract_m3u8_from_embed
        (HEADERS ⟨"UA".toList, "https://cfg.example/".toList, []⟩)
        (fun _ => Except.error "e".toList)
        "https://anime1u.com/embed/9".toList).2.1
      = [⟨"https://anime1u.com/embed/9".toList,
          addHeaders (HEADERS ⟨"UA".toList, "https://cfg.example/".toList, []⟩)⟩] := by
  have h := requests_use_module_headers
    ⟨"UA".toList, "https://cfg.example/".toList, []⟩
    (fun _ => Except.error "e".toList) "https://h/x.m3u8".toList
    "https://anime1u.com/embed/9".toList
    ⟨"https://h/x.m3u8".toList,
      addHeaders (HEADERS ⟨"UA".toList, "https://cfg.example/".toList, []⟩)⟩
    (by decide)
  simpa using h

/-- Characters of an ordinary segment file name: letters, digits and the
punctuation common in media segment names; in particular no scheme colon,
path separator, query, fragment, semicolon, quote or whitespace. -/
def plainRefChar (c : Char) : Bool :=
  c.isAlphanum || c = '.' || c = '-' || c = '_' || c = '~' || c = '%' ||
  c = '+' || c = '='

/-- A plain relative segment reference: nonempty, not a dot segment, built
from ordinary file-name characters. -/
def PlainRef (r : Str) : Prop :=
  r ≠ [] ∧ r ≠ ['.'] ∧ r ≠ ['.', '.'] ∧ ∀ c ∈ r, plainRefChar c = true

/-- A character allowed in a host name here. -/
def hostChar (c : Char) : Bool := c.isAlphanum || c = '.' || c = '-'

/-- A base URL of the shape `scheme://host/seg1/.../segk/` with ordinary
host and directory segment names (the shape `rsplitBase` produces for an
ordinary playlist URL). -/
def GoodBase (b : Str) : Prop :=
  ∃ (scheme host : Str) (segs : List Str),
    (scheme = "http".toList ∨ scheme = "https".toList) ∧
    host ≠ [] ∧ (∀ c ∈ host, hostChar c = true) ∧
    (∀ sg ∈ segs, sg ≠ [] ∧ sg ≠ ['.'] ∧ sg ≠ ['.', '.'] ∧
      ∀ c ∈ sg, plainRefChar c = true) ∧
    b = scheme ++ "://".toList ++ host ++
      '/' :: (segs.map (fun sg => sg ++ ['/'])).flatten

/-- A plain character is none of the structural URL characters. -/
theorem plainRefChar_ne (c : Char) (h : plainRefChar c = true) :
    c ≠ ':' ∧ c ≠ '/' ∧ c ≠ '?' ∧ c ≠ '#' ∧ c ≠ '\t' ∧ c ≠ '\r' ∧ c ≠ '\n' := by
  refine ⟨?_, ?_, ?_, ?_, ?_, ?_, ?_⟩ <;>
    exact fun e => absurd h (by subst e; decide)

/-- A host character is none of the structural URL characters. -/
theorem hostChar_ne (c : Char) (h : hostChar c = true) :
    c ≠ ':' ∧ c ≠ '/' ∧ c ≠ '?' ∧ c ≠ '#' ∧ c ≠ '\t' ∧ c ≠ '\r' ∧ c ≠ '\n' := by
  refine ⟨?_, ?_, ?_, ?_, ?_, ?_, ?_⟩ <;>
    exact fun e => absurd h (by subst e; decide)

/-- `dropWhile` walks through a prefix all of whose elements satisfy `p`. -/
theorem dropWhile_append_of_all (p : Char → Bool) (xs ys : Str)
    (h : ∀ x ∈ xs, p x = true) :
    (xs ++ ys).dropWhile p = ys.dropWhile p := by
  induction xs with
  | nil => simp
  | cons a xs ih =>
      have ha := h a (List.mem_cons_self a xs)
      simp [List.dropWhile_cons, ha,
        ih (fun x hx => h x (List.mem_cons_of_mem a hx))]

/-- `takeWhile` stops exactly at the first failing element. -/
theorem takeWhile_stops (p : Char → Bool) (xs ys : Str) (y : Char)
    (hall : ∀ x ∈ xs, p x = true) (hy : p y = false) :
    (xs ++ y :: ys).takeWhile p = xs := by
  rw [takeWhile_append_of_all p xs _ hall, List.takeWhile_cons, hy]
  simp

/-- `dropWhile` keeps everything from the first failing element on. -/
theorem dropWhile_stops (p : Char → Bool) (xs ys : Str) (y : Char)
    (hall : ∀ x ∈ xs, p x = true) (hy : p y = false) :
    (xs ++ y :: ys).dropWhile p = y :: ys := by
  rw [dropWhile_append_of_all p xs _ hall, List.dropWhile_cons, hy]
  simp

/-- `splitOnceChar` on a string not containing the separator. -/
theorem splitOnceChar_not_mem (sep : Char) :
    ∀ s : Str, (∀ c ∈ s, c ≠ sep) → splitOnceChar sep s = (s, []) := by
  intro s
  induction s with
  | nil => intro _; rfl
  | cons c t ih =>
      intro h
      have hc := h c (List.mem_cons_self c t)
      simp [splitOnceChar, hc, ih (fun x hx => h x (List.mem_cons_of_mem c hx))]

/-- `splitOnChar` on a string not containing the separator. -/
theorem splitOnChar_not_mem (sep : Char) :
    ∀ s : Str, (∀ c ∈ s, c ≠ sep) → splitOnChar sep s = [s] := by
  intro s
  induction s with
  | nil => intro _; rfl
  | cons c t ih =>
      intro h
      have hc := h c (List.mem_cons_self c t)
      rw [splitOnChar, if_neg hc, ih (fun x hx => h x (List.mem_cons_of_mem c hx))]

/-- `splitOnChar` peels one separator-terminated segment. -/
theorem splitOnChar_seg (sep : Char) (sg : Str) (t : Str)
    (h : ∀ c ∈ sg, c ≠ sep) :
    splitOnChar sep (sg ++ sep :: t) = sg :: splitOnChar sep t := by
  induction sg with
  | nil => simp [splitOnChar]
  | cons c u ih =>
      have hc := h c (List.mem_cons_self c u)
      rw [List.cons_append, splitOnChar, if_neg hc,
        ih (fun x hx => h x (List.mem_cons_of_mem c hx))]

/-- `splitOnChar` never returns the empty list. -/
theorem splitOnChar_ne_nil (sep : Char) : ∀ s : Str, splitOnChar sep s ≠ [] := by
  intro s
  induction s with
  | nil => simp [splitOnChar]
  | cons c t ih =>
      rw [splitOnChar]
      by_cases hc : c = sep
      · simp [hc]
      · rw [if_neg hc]
        rcases hs : splitOnChar sep t with _ | ⟨p, ps⟩
        · exact absurd hs ih
        · simp

/-- Splitting a flattened `seg/`-sequence on `/` yields the segments plus a
final empty part. -/
theorem splitOnChar_flatten :
    ∀ segs : List Str, (∀ sg ∈ segs, sg ≠ [] ∧ ∀ c ∈ sg, c ≠ '/') →
    splitOnChar '/' ((segs.map (fun sg => sg ++ ['/'])).flatten)
      = segs ++ [[]] := by
  intro segs
  induction segs with
  | nil => intro _; rfl
  | cons sg segs ih =>
      intro h
      have hsg := h sg (List.mem_cons_self sg segs)
      have hrest := ih (fun x hx => h x (List.mem_cons_of_mem sg hx))
      simp only [List.map_cons, List.flatten_cons, List.append_assoc,
        List.singleton_append]
      rw [splitOnChar_seg '/' sg _ hsg.2, hrest]
      rfl

/-- One-step equation for `filterKeepLast` on a list with a nonempty tail. -/
theorem filterKeepLast_cons (a : Str) (l : List Str) (h : l ≠ []) :
    filterKeepLast (a :: l)
      = if a = [] then filterKeepLast l else a :: filterKeepLast l := by
  cases l with
  | nil => exact absurd rfl h
  | cons b t => rfl

/-- `filterKeepLast` passes a nonempty-entries prefix through unchanged. -/
theorem filterKeepLast_append (xs l : List Str) (hl : l ≠ [])
    (hxs : ∀ sg ∈ xs, sg ≠ []) :
    filterKeepLast (xs ++ l) = xs ++ filterKeepLast l := by
  induction xs with
  | nil => rfl
  | cons a xs ih =>
      have ha := hxs a (List.mem_cons_self a xs)
      have hne : xs ++ l ≠ [] := by
        simp only [ne_eq, List.append_eq_nil]
        exact fun hc => hl hc.2
      rw [List.cons_append, filterKeepLast_cons a _ hne, if_neg ha,
        ih (fun x hx => hxs x (List.mem_cons_of_mem a hx))]
      rfl

/-- One-step equation for `filterMiddle` on a list with a nonempty tail. -/
theorem filterMiddle_cons (a : Str) (l : List Str) (h : l ≠ []) :
    filterMiddle (a :: l) = a :: filterKeepLast l := by
  cases l with
  | nil => exact absurd rfl h
  | cons b t => rfl

/-- The dot-resolution fold is a plain append when no entry is a dot
segment. -/
theorem foldl_dotStep_no_dots :
    ∀ l : List Str, (∀ sg ∈ l, sg ≠ ['.'] ∧ sg ≠ ['.', '.']) →
    ∀ acc : List Str, l.foldl dotStep acc = acc ++ l := by
  intro l
  induction l with
  | nil => intro _ acc; simp
  | cons sg l ih =>
      intro h acc
      have hsg := h sg (List.mem_cons_self sg l)
      rw [List.foldl_cons]
      have hstep : dotStep acc sg = acc ++ [sg] := by
        unfold dotStep
        rw [if_neg hsg.2, if_neg hsg.1]
      rw [hstep, ih (fun x hx => h x (List.mem_cons_of_mem sg hx))]
      simp

/-- One-step equation for `joinChar` with a nonempty tail. -/
theorem joinChar_cons_ne (sep : Char) (p : Str) (ps : List Str) (h : ps ≠ []) :
    joinChar sep (p :: ps) = p ++ sep :: joinChar sep ps := by
  cases ps with
  | nil => exact absurd rfl h
  | cons q qs => rfl

/-- Joining the directory segments and a final name reassembles the flat
path. -/
theorem joinChar_segs_last :
    ∀ (segs : List Str) (r : Str),
    joinChar '/' (segs ++ [r])
      = (segs.map (fun sg => sg ++ ['/'])).flatten ++ r := by
  intro segs
  induction segs with
  | nil => intro r; simp [joinChar]
  | cons sg segs ih =>
      intro r
      have hne : segs ++ [r] ≠ [] := by simp
      rw [List.cons_append, joinChar_cons_ne '/' sg _ hne, ih r]
      simp

/-- `splitScheme` on a scheme-fronted URL. -/
theorem splitScheme_concat (S z : Str)
    (hS : S = "http".toList ∨ S = "https".toList) :
    splitScheme (S ++ ':' :: z) = some (S, z) := by
  have htw : (S ++ ':' :: z).takeWhile (fun c => c ≠ ':') = S := by
    rcases hS with h | h <;> subst h <;>
      exact takeWhile_stops _ _ _ ':' (by decide) (by decide)
  have hdrop : (S ++ ':' :: z).drop (S.length + 1) = z := by
    have he : S ++ ':' :: z = (S ++ [':']) ++ z := by simp
    have hl : S.length + 1 = (S ++ [':']).length := by simp
    rw [he, hl, List.drop_left]
  unfold splitScheme
  dsimp only
  rw [htw]
  rw [if_pos ⟨by simp only [List.length_append, List.length_cons]; omega,
    by rcases hS with h | h <;> subst h <;> decide,
    by rcases hS with h | h <;> subst h <;> decide,
    by rcases hS with h | h <;> subst h <;> decide⟩]
  rw [hdrop]
  have hlow : S.map Char.toLower = S := by
    rcases hS with h | h <;> subst h <;> decide
  rw [hlow]

/-- `removeTabCrLf` is the identity on strings without tab, CR or LF. -/
theorem removeTabCrLf_of_clean (s : Str)
    (h : ∀ c ∈ s, c ≠ '\t' ∧ c ≠ '\r' ∧ c ≠ '\n') :
    removeTabCrLf s = s := by
  unfold removeTabCrLf
  apply List.filter_eq_self.mpr
  intro a ha
  obtain ⟨h1, h2, h3⟩ := h a ha
  simp [h1, h2, h3]

/-- `urlsplit` of a good base URL. -/
theorem urlsplitM_base (S H J : Str)
    (hS : S = "http".toList ∨ S = "https".toList)
    (hHne : H ≠ []) (hH : ∀ c ∈ H, hostChar c = true)
    (hJ : ∀ c ∈ J, (plainRefChar c || c = '/') = true) :
    urlsplitM [] (S ++ "://".toList ++ H ++ '/' :: J)
      = ⟨S, H, '/' :: J, [], []⟩ := by
  have hb : S ++ "://".toList ++ H ++ '/' :: J
      = S ++ ':' :: ('/' :: '/' :: (H ++ '/' :: J)) := by simp
  have hJclean : ∀ c ∈ J, c ≠ '\t' ∧ c ≠ '\r' ∧ c ≠ '\n' := by
    intro c hc
    rcases (by simpa using hJ c hc : plainRefChar c = true ∨ c = '/') with h | h
    · obtain ⟨_, _, _, _, h5, h6, h7⟩ := plainRefChar_ne c h
      exact ⟨h5, h6, h7⟩
    · subst h
      refine ⟨by decide, by decide, by decide⟩
  have hclean : removeTabCrLf (S ++ ':' :: ('/' :: '/' :: (H ++ '/' :: J)))
      = S ++ ':' :: ('/' :: '/' :: (H ++ '/' :: J)) := by
    apply removeTabCrLf_of_clean
    intro c hc
    simp only [List.mem_append, List.mem_cons] at hc
    rcases hc with hc | hc | hc | hc | hc | hc | hc
    · rcases hS with h | h <;> subst h <;> fin_cases hc <;>
        refine ⟨by decide, by decide, by decide⟩
    · subst hc; refine ⟨by decide, by decide, by decide⟩
    · subst hc; refine ⟨by decide, by decide, by decide⟩
    · subst hc; refine ⟨by decide, by decide, by decide⟩
    · obtain ⟨_, _, _, _, h5, h6, h7⟩ := hostChar_ne c (hH c hc)
      exact ⟨h5, h6, h7⟩
    · subst hc; refine ⟨by decide, by decide, by decide⟩
    · exact hJclean c hc
  have hallH : ∀ x ∈ H, netlocChar x = true := by
    intro x hx
    obtain ⟨_, h2, h3, h4, _, _, _⟩ := hostChar_ne x (hH x hx)
    simp [netlocChar, h2, h3, h4]
  have hpre : (['/', '/'] : Str).isPrefixOf ('/' :: '/' :: (H ++ '/' :: J))
      = true := by simp [List.isPrefixOf]
  have hdrop2 : ('/' :: '/' :: (H ++ '/' :: J)).drop 2 = H ++ '/' :: J := rfl
  have htake : (H ++ '/' :: J).takeWhile netlocChar = H :=
    takeWhile_stops _ _ _ '/' hallH (by decide)
  have hdropw : (H ++ '/' :: J).dropWhile netlocChar = '/' :: J :=
    dropWhile_stops _ _ _ '/' hallH (by decide)
  have hsp1 : splitOnceChar '#' ('/' :: J) = ('/' :: J, []) := by
    apply splitOnceChar_not_mem
    intro c hc
    rcases List.mem_cons.mp hc with h | h
    · subst h; decide
    · rcases (by simpa using hJ c h : plainRefChar c = true ∨ c = '/') with h2 | h2
      · exact (plainRefChar_ne c h2).2.2.2.1
      · subst h2; decide
  have hsp2 : splitOnceChar '?' ('/' :: J) = ('/' :: J, []) := by
    apply splitOnceChar_not_mem
    intro c hc
    rcases List.mem_cons.mp hc with h | h
    · subst h; decide
    · rcases (by simpa using hJ c h : plainRefChar c = true ∨ c = '/') with h2 | h2
      · exact (plainRefChar_ne c h2).2.2.1
      · subst h2; decide
  rw [hb]
  unfold urlsplitM
  simp only [hclean, splitScheme_concat S ('/' :: '/' :: (H ++ '/' :: J)) hS,
    hpre, if_true, hdrop2, htake, hdropw, hsp1, hsp2]

/-- `urlsplit` of a plain relative reference, with an inherited scheme. -/
theorem urlsplitM_plain_ref (S r : Str) (hrne : r ≠ [])
    (hr : ∀ c ∈ r, plainRefChar c = true) :
    urlsplitM S r = ⟨S, [], r, [], []⟩ := by
  have hclean : removeTabCrLf r = r := by
    apply removeTabCrLf_of_clean
    intro c hc
    obtain ⟨_, _, _, _, h5, h6, h7⟩ := plainRefChar_ne c (hr c hc)
    exact ⟨h5, h6, h7⟩
  have hscheme : splitScheme r = none := by
    unfold splitScheme
    dsimp only
    have htw : r.takeWhile (fun c => c ≠ ':') = r := by
      have h := takeWhile_append_of_all (fun c => c ≠ ':') r []
        (fun x hx => by
          have h1 := (plainRefChar_ne x (hr x hx)).1
          simp [h1])
      simpa using h
    rw [htw, if_neg]
    intro hcontra
    exact lt_irrefl _ hcontra.1
  have hpre : (['/', '/'] : Str).isPrefixOf r = false := by
    rcases r with _ | ⟨c, t⟩
    · exact absurd rfl hrne
    · have hcs := (plainRefChar_ne c (hr c (List.mem_cons_self c t))).2.1
      simp [List.isPrefixOf, Ne.symm hcs]
  have hsp1 : splitOnceChar '#' r = (r, []) :=
    splitOnceChar_not_mem '#' r
      (fun c hc => (plainRefChar_ne c (hr c hc)).2.2.2.1)
  have hsp2 : splitOnceChar '?' r = (r, []) :=
    splitOnceChar_not_mem '?' r
      (fun c hc => (plainRefChar_ne c (hr c hc)).2.2.1)
  unfold urlsplitM
  simp only [hclean, hscheme, hpre, Bool.false_eq_true, if_false, hsp1, hsp2]

/-- `urlunsplit` of scheme, host and an absolute path. -/
theorem urlunsplitM_std (S H P : Str) (hS : S ≠ []) (hH : H ≠ []) :
    urlunsplitM ⟨S, H, '/' :: P, [], []⟩
      = S ++ ':' :: '/' :: '/' :: (H ++ '/' :: P) := by
  unfold urlunsplitM
  dsimp only
  rw [if_pos (Or.inl hH)]
  rw [if_neg (show ¬('/' :: P ≠ [] ∧ ('/' :: P).headD ' ' ≠ '/') from
    fun hcontra => hcontra.2 rfl)]
  rw [if_pos hS]
  rw [if_neg (show ¬(([] : Str) ≠ []) from fun hq => hq rfl)]
  rw [if_neg (show ¬(([] : Str) ≠ []) from fun hf => hf rfl)]
  simp

/-- `urljoin` of a good base with a plain relative reference is plain
concatenation: no segment of either is normalized away. -/
theorem urljoin_good_plain (b r : Str) (hb : GoodBase b) (hr : PlainRef r) :
    urljoin b r = b ++ r := by
  obtain ⟨S, H, segs, hS, hHne, hH, hsegs, hbe⟩ := hb
  obtain ⟨hrne, hrd1, hrd2, hrc⟩ := hr
  subst hbe
  have hJ : ∀ c ∈ (segs.map (fun sg => sg ++ ['/'])).flatten,
      (plainRefChar c || c = '/') = true := by
    intro c hc
    rw [List.mem_flatten] at hc
    obtain ⟨l, hl, hcl⟩ := hc
    rw [List.mem_map] at hl
    obtain ⟨sg, hsg, rfl⟩ := hl
    rcases List.mem_append.mp hcl with h | h
    · simp [(hsegs sg hsg).2.2.2 c h]
    · have he : c = '/' := by simpa using h
      subst he; simp
  have hSne : S ≠ [] := by rcases hS with h | h <;> subst h <;> decide
  have hSrel : S ∈ usesRelative := by rcases hS with h | h <;> subst h <;> decide
  have hSnet : S ∈ usesNetloc := by rcases hS with h | h <;> subst h <;> decide
  have hbne : S ++ "://".toList ++ H ++
      '/' :: (segs.map (fun sg => sg ++ ['/'])).flatten ≠ [] := by
    simp
  have hbase := urlsplitM_base S H _ hS hHne hH hJ
  have huref := urlsplitM_plain_ref S r hrne hrc
  have hheadD : ¬(r.headD ' ' = '/') := by
    rcases r with _ | ⟨r0, rt⟩
    · exact absurd rfl hrne
    · exact (plainRefChar_ne r0 (hrc r0 (List.mem_cons_self r0 rt))).2.1
  have hsplitr : splitOnChar '/' r = [r] :=
    splitOnChar_not_mem '/' r (fun c hc => (plainRefChar_ne c (hrc c hc)).2.1)
  have hsplit0 : splitOnChar '/'
      ('/' :: (segs.map (fun sg => sg ++ ['/'])).flatten)
      = [] :: (segs ++ [[]]) := by
    rw [splitOnChar, if_pos rfl]
    rw [splitOnChar_flatten segs (fun sg hsg => ⟨(hsegs sg hsg).1,
      fun c hc => (plainRefChar_ne c ((hsegs sg hsg).2.2.2 c hc)).2.1⟩)]
  have hlast0 : (([] : Str) :: (segs ++ [[]])).getLast? = some [] := by
    rw [show (([] : Str) :: (segs ++ [[]])) = ((([] : Str) :: segs) ++ [[]])
      by simp]
    exact List.getLast?_concat _
  have hfm : filterMiddle ((([] : Str) :: (segs ++ [[]])) ++ [r])
      = [] :: (segs ++ [r]) := by
    rw [show ((([] : Str) :: (segs ++ [[]])) ++ [r])
        = ([] :: (segs ++ [[], r])) by simp]
    rw [filterMiddle_cons [] _ (by simp)]
    rw [filterKeepLast_append segs [[], r] (by simp)
      (fun sg hsg => (hsegs sg hsg).1)]
    rfl
  have hfold : List.foldl dotStep [] (([] : Str) :: (segs ++ [r]))
      = ([] : Str) :: (segs ++ [r]) := by
    have hcond : ∀ sg ∈ (([] : Str) :: (segs ++ [r])),
        sg ≠ ['.'] ∧ sg ≠ ['.', '.'] := by
      intro sg hsg
      rcases List.mem_cons.mp hsg with h | h
      · subst h; exact ⟨by decide, by decide⟩
      · rcases List.mem_append.mp h with h2 | h2
        · exact ⟨(hsegs sg h2).2.1, (hsegs sg h2).2.2.1⟩
        · have he : sg = r := by simpa using h2
          subst he
          exact ⟨hrd1, hrd2⟩
    have h := foldl_dotStep_no_dots (([] : Str) :: (segs ++ [r])) hcond []
    simpa using h
  have hlastseg : ((([] : Str)) :: (segs ++ [r])).getLast? = some r := by
    rw [show (([] : Str) :: (segs ++ [r])) = ((([] : Str) :: segs) ++ [r])
      by simp]
    exact List.getLast?_concat _
  have hjoin : joinChar '/' (([] : Str) :: (segs ++ [r]))
      = '/' :: ((segs.map (fun sg => sg ++ ['/'])).flatten ++ r) := by
    rw [joinChar_cons_ne '/' [] _ (by simp), joinChar_segs_last segs r]
    rfl
  unfold urljoin
  rw [if_neg hbne, if_neg hrne, hbase]
  dsimp only
  rw [huref]
  dsimp only
  rw [if_neg (show ¬(S ≠ S ∨ S ∉ usesRelative) from
    fun h => h.elim (fun hne => hne rfl) (fun hnm => hnm hSrel))]
  rw [if_neg (show ¬(S ∈ usesNetloc ∧ ([] : Str) ≠ []) from
    fun h => h.2 rfl)]
  rw [if_pos hSnet]
  rw [if_neg hrne]
  rw [hsplit0]
  rw [if_neg (show ¬((([] : Str) :: (segs ++ [[]])).getLast? ≠ some [])
    from fun h => h hlast0)]
  rw [if_neg hheadD]
  rw [hsplitr, hfm, hfold, hlastseg]
  dsimp only
  rw [if_neg (show ¬(r = ['.', '.'] ∨ r = ['.']) from
    fun h => h.elim hrd2 hrd1)]
  rw [hjoin]
  rw [if_neg (show ¬(('/' ::
      ((segs.map (fun sg => sg ++ ['/'])).flatten ++ r)) = []) from by simp)]
  rw [urlunsplitM_std S H _ hSne hHne]
  simp

/-- C3 (amended): a reference beginning with `http` is used verbatim; any
other reference is resolved with `urljoin` against the playlist base, which
for an ordinary base and a plain relative file reference equals the plain
concatenation base ++ reference — while `.` and `..` segments are normalized
by `urljoin`, as the counterexample records. -/
theorem resolve_ref_verbatim_or_concat (base line r : Str)
    (hline : "http".toList.isPrefixOf line = true)
    (hb : GoodBase base) (hr : PlainRef r)
    (hrh : "http".toList.isPrefixOf r = false) :
    resolveRef base line = line ∧
    urljoin base r = base ++ r ∧
    resolveRef base r = base ++ r := by
  refine ⟨?_, urljoin_good_plain base r hb hr, ?_⟩
  · unfold resolveRef
    rw [if_pos hline]
  · unfold resolveRef
    have hnp : ¬("http".toList.isPrefixOf r = true) := by
      intro hcontra
      rw [hrh] at hcontra
      exact Bool.noConfusion hcontra
    rw [if_neg hnp, urljoin_good_plain base r hb hr]

/-- Witness for the amended C3: an absolute reference passes through
verbatim and a plain segment name concatenates onto the base. -/
theorem resolve_ref_verbatim_or_concat_applied :
    resolveRef "https://h/a/".toList "http://cdn/x.ts".toList
      = "http://cdn/x.ts".toList ∧
    urljoin "https://h/a/".toList "seg1.ts".toList
      = "https://h/a/".toList ++ "seg1.ts".toList ∧
    resolveRef "https://h/a/".toList "seg1.ts".toList
      = "https://h/a/".toList ++ "seg1.ts".toList := by
  have hgb : GoodBase "https://h/a/".toList :=
    ⟨"https".toList, "h".toList, ["a".toList], Or.inr rfl, by decide,
      by decide, by decide, by decide⟩
  have hpr : PlainRef "seg1.ts".toList :=
    ⟨by decide, by decide, by decide, by decide⟩
  exact resolve_ref_verbatim_or_concat "https://h/a/".toList
    "http://cdn/x.ts".toList "seg1.ts".toList (by decide) hgb hpr (by decide)
